import Mathlib

/-!
Shallow embedding of the trading manager's portfolio engine
(src/portfolio/PortfolioManager.js) and webhook signal intake
(src/tradingview/WebhookReceiver.js).

JavaScript numbers are modelled as rationals; JS Map objects (keyed by id,
insertion-ordered) are modelled as lists with unique ids appended at the
tail; methods returning `false` on failure are modelled with Option.
-/

namespace Trading

/-- An inbound trade intent handed to the portfolio manager (the signal
object consumed by openPosition / calculatePositionSize). -/
structure Signal where
  symbol : String
  strategy : String
  side : String
  price : ℚ
  stopLoss : ℚ
  takeProfit : ℚ
  deriving DecidableEq

/-- A simulated open trade, as built by openPosition.  The JS timestamp
field is dropped (wall clock); ids are naturals supplied by a counter in
place of the random id string of generatePositionId. -/
structure Position where
  id : Nat
  symbol : String
  strategy : String
  side : String
  entryPrice : ℚ
  size : ℚ
  stopLoss : ℚ
  takeProfit : ℚ
  unrealizedPnL : ℚ
  maxDrawdown : ℚ
  maxProfit : ℚ
  deriving DecidableEq

/-- A Position frozen at close time, as built by closePosition. -/
structure ClosedTrade where
  id : Nat
  symbol : String
  strategy : String
  side : String
  entryPrice : ℚ
  size : ℚ
  stopLoss : ℚ
  takeProfit : ℚ
  closePrice : ℚ
  realizedPnL : ℚ
  reason : String
  deriving DecidableEq

/-- The mutable state of PortfolioManager: capital, the Map of open
positions (insertion-ordered list, unique ids), the closed-trade history
and the risk configuration. -/
structure PortfolioState where
  initialCapital : ℚ
  currentCapital : ℚ
  positions : List Position
  closedTrades : List ClosedTrade
  maxRiskPerTrade : ℚ
  maxPortfolioRisk : ℚ
  maxOpenPositions : Nat
  nextId : Nat
  deriving DecidableEq

/-- Constructor semantics of PortfolioManager(config). -/
def mkPortfolio (initialCapital maxRiskPerTrade maxPortfolioRisk : ℚ)
    (maxOpenPositions : Nat) : PortfolioState :=
  { initialCapital := initialCapital
    currentCapital := initialCapital
    positions := []
    closedTrades := []
    maxRiskPerTrade := maxRiskPerTrade
    maxPortfolioRisk := maxPortfolioRisk
    maxOpenPositions := maxOpenPositions
    nextId := 0 }

/-- The default configuration: capital 10000, 2% per-trade risk,
10% portfolio risk, at most 5 open positions. -/
def defaultPortfolio : PortfolioState :=
  mkPortfolio 10000 (2/100) (10/100) 5

/-- JS String.replace(sub, replacement) with empty replacement replaces only
the first occurrence; char-list worker. -/
def replaceFirstChars : List Char → List Char → List Char
  | [], _ => []
  | c :: rest, sub =>
    if sub.isPrefixOf (c :: rest) then (c :: rest).drop sub.length
    else c :: replaceFirstChars rest sub

/-- symbol.replace(sub, empty string) of JS: remove the first occurrence of
sub. -/
def replaceFirst (s sub : String) : String :=
  String.mk (replaceFirstChars s.data sub.data)

/-- getCorrelatedSymbols: static correlation table keyed by the base symbol
obtained by stripping /USDT then /USD. -/
def getCorrelatedSymbols (symbol : String) : List String :=
  let baseSymbol := replaceFirst (replaceFirst symbol "/USDT") "/USD"
  if baseSymbol = "BTC" then ["ETH", "LTC", "BCH"]
  else if baseSymbol = "ETH" then ["BTC", "ADA", "DOT"]
  else if baseSymbol = "ADA" then ["ETH", "DOT", "SOL"]
  else if baseSymbol = "DOT" then ["ETH", "ADA", "LINK"]
  else []

/-- checkCorrelationLimit: fewer than 2 open positions in correlated
symbols. -/
def checkCorrelationLimit (st : PortfolioState) (symbol : String) : Bool :=
  let correlatedSymbols := getCorrelatedSymbols symbol
  let correlatedPositions :=
    st.positions.filter (fun pos => correlatedSymbols.contains pos.symbol)
  decide (correlatedPositions.length < 2)

/-- The risk fraction a single open position contributes:
abs(entryPrice - stopLoss) / entryPrice. -/
def positionRisk (pos : Position) : ℚ :=
  |pos.entryPrice - pos.stopLoss| / pos.entryPrice

/-- getCurrentPortfolioRisk: sum over open positions of
abs(entryPrice - stopLoss) / entryPrice. -/
def getCurrentPortfolioRisk (st : PortfolioState) : ℚ :=
  st.positions.foldl (fun risk pos => risk + positionRisk pos) 0

/-- checkRiskBudget: currentRisk + maxRiskPerTrade must stay within
maxPortfolioRisk.  (The JS method ignores its strategy/currentPrice
arguments.) -/
def checkRiskBudget (st : PortfolioState) : Bool :=
  decide (getCurrentPortfolioRisk st + st.maxRiskPerTrade ≤ st.maxPortfolioRisk)

/-- getAvailableCapital. -/
def getAvailableCapital (st : PortfolioState) : ℚ :=
  st.currentCapital

/-- canOpenPosition: all four admission checks must pass (maxPositions,
correlation, riskBudget, capital).  The strategy and price arguments are
carried but, as in the source, unused by the checks. -/
def canOpenPosition (st : PortfolioState) (symbol : String)
    (_strategy : String) (_currentPrice : ℚ) : Bool :=
  decide (st.positions.length < st.maxOpenPositions) &&
  checkCorrelationLimit st symbol &&
  checkRiskBudget st &&
  decide (0 < getAvailableCapital st)

/-- calculatePositionSize: risk-based value, capped at 80% of available
capital, converted to units. -/
def calculatePositionSize (st : PortfolioState) (signal : Signal) : ℚ :=
  let riskAmount := st.currentCapital * st.maxRiskPerTrade
  let stopDistance := |signal.price - signal.stopLoss| / signal.price
  let positionValue := riskAmount / stopDistance
  let maxPositionValue := getAvailableCapital st * (8/10)
  let cappedValue := min positionValue maxPositionValue
  cappedValue / signal.price

/-- openPosition: admission check, sizing, debit of size*price from
capital; returns none where the JS returns false. -/
def openedPositionOf (st : PortfolioState) (signal : Signal) : Position :=
  { id := st.nextId
    symbol := signal.symbol
    strategy := signal.strategy
    side := signal.side
    entryPrice := signal.price
    size := calculatePositionSize st signal
    stopLoss := signal.stopLoss
    takeProfit := signal.takeProfit
    unrealizedPnL := 0
    maxDrawdown := 0
    maxProfit := 0 }

def openPosition (st : PortfolioState) (signal : Signal) :
    Option (PortfolioState × Position) :=
  if canOpenPosition st signal.symbol signal.strategy signal.price then
    let position := openedPositionOf st signal
    some ({ st with
            positions := st.positions ++ [position]
            currentCapital :=
              st.currentCapital - calculatePositionSize st signal * signal.price
            nextId := st.nextId + 1 }, position)
  else none

/-- calculatePnL: signed price difference times size. -/
def calculatePnL (position : Position) (currentPrice : ℚ) : ℚ :=
  let priceDiff :=
    if position.side = "long" then currentPrice - position.entryPrice
    else position.entryPrice - currentPrice
  position.size * priceDiff

/-- The ClosedTrade record closePosition builds: the position frozen with
the close price, the realized PnL from calculatePnL and the close
reason. -/
def closedTradeOf (position : Position) (closePrice : ℚ) (reason : String) :
    ClosedTrade :=
  { id := position.id
    symbol := position.symbol
    strategy := position.strategy
    side := position.side
    entryPrice := position.entryPrice
    size := position.size
    stopLoss := position.stopLoss
    takeProfit := position.takeProfit
    closePrice := closePrice
    realizedPnL := calculatePnL position closePrice
    reason := reason }

/-- closePosition: look up by id (none where the JS returns false), record
the trade, delete the position, credit size*closePrice. -/
def closePosition (st : PortfolioState) (positionId : Nat) (closePrice : ℚ)
    (reason : String) : Option (PortfolioState × ClosedTrade) :=
  match st.positions.find? (fun p => p.id == positionId) with
  | none => none
  | some position =>
    let trade := closedTradeOf position closePrice reason
    some ({ st with
            closedTrades := st.closedTrades ++ [trade]
            positions := st.positions.filter (fun p => p.id != positionId)
            currentCapital := st.currentCapital + position.size * closePrice },
          trade)

/-- The exit decision of checkExitConditions: for longs, stop-loss on
price ≤ stopLoss else take-profit on price ≥ takeProfit; mirrored for
shorts; none otherwise. -/
def checkExitReason (position : Position) (currentPrice : ℚ) : Option String :=
  if position.side = "long" then
    if currentPrice ≤ position.stopLoss then some "stop_loss"
    else if position.takeProfit ≤ currentPrice then some "take_profit"
    else none
  else
    if position.stopLoss ≤ currentPrice then some "stop_loss"
    else if currentPrice ≤ position.takeProfit then some "take_profit"
    else none

/-- checkExitConditions: close the position when an exit reason fires. -/
def checkExitConditions (st : PortfolioState) (positionId : Nat)
    (position : Position) (currentPrice : ℚ) : PortfolioState :=
  match checkExitReason position currentPrice with
  | some reason =>
    match closePosition st positionId currentPrice reason with
    | some (st', _) => st'
    | none => st
  | none => st

/-- The unrealized PnL fraction the rebalance loop computes for a
position. -/
def pnlPercentOf (position : Position) : ℚ :=
  position.unrealizedPnL / (position.size * position.entryPrice)

/-- The state change of one rebalance loop iteration: force-close the
position (reason rebalance_loss, at entryPrice*(1+pnlPercent)) when its
PnL fraction is below -15%, otherwise leave the state alone. -/
def rebalanceStepState (st : PortfolioState) (position : Position) :
    PortfolioState :=
  if pnlPercentOf position < -(15/100 : ℚ) then
    match closePosition st position.id
        (position.entryPrice * (1 + pnlPercentOf position)) "rebalance_loss" with
    | some (s, _) => s
    | none => st
  else st

/-- The partialProfitSuggestion emissions of one rebalance loop
iteration: the position's id when its PnL fraction exceeds +25%. -/
def rebalanceAdvisories (position : Position) : List Nat :=
  if (25/100 : ℚ) < pnlPercentOf position then [position.id] else []

/-- One pass of the rebalance loop body over the snapshot of open
positions, threading the state; returns the new state and the ids for
which a partialProfitSuggestion event was emitted. -/
def rebalanceGo : PortfolioState → List Position → PortfolioState × List Nat
  | st, [] => (st, [])
  | st, position :: rest =>
    let result := rebalanceGo (rebalanceStepState st position) rest
    (result.1, rebalanceAdvisories position ++ result.2)

/-- rebalancePortfolio: sweep the open positions, force-closing losses
beyond -15% (reason rebalance_loss) and emitting partial-profit advisories
above +25%. -/
def rebalancePortfolio (st : PortfolioState) : PortfolioState × List Nat :=
  rebalanceGo st st.positions

/-- A call against the portfolio manager: openPosition or closePosition. -/
inductive Op where
  | openSig (signal : Signal)
  | closePos (positionId : Nat) (closePrice : ℚ) (reason : String)
  deriving DecidableEq

/-- Apply one call; rejected opens and not-found closes leave the state
unchanged (the JS returns false without mutating). -/
def applyOp (st : PortfolioState) : Op → PortfolioState
  | .openSig signal =>
    match openPosition st signal with
    | some (st', _) => st'
    | none => st
  | .closePos positionId closePrice reason =>
    match closePosition st positionId closePrice reason with
    | some (st', _) => st'
    | none => st

/-- Apply a sequence of calls in order. -/
def applyTrace (st : PortfolioState) : List Op → PortfolioState
  | [] => st
  | op :: ops => applyTrace (applyOp st op) ops

/-- The committed capital of one open position. -/
def positionNotional (pos : Position) : ℚ :=
  pos.size * pos.entryPrice

/-- getOpenPositionsValue: committed capital of the open book. -/
def getOpenPositionsValue (st : PortfolioState) : ℚ :=
  st.positions.foldl (fun total pos => total + positionNotional pos) 0

/-- Sum of realizedPnL over the closed-trade history. -/
def realizedTotal (st : PortfolioState) : ℚ :=
  (st.closedTrades.map (fun t => t.realizedPnL)).sum

/-- Sum over closed trades of the signed cash difference
size * (closePrice - entryPrice); this is what closing actually moves
through currentCapital, and equals realizedPnL exactly for long trades. -/
def cashDiffTotal (st : PortfolioState) : ℚ :=
  (st.closedTrades.map (fun t => t.size * (t.closePrice - t.entryPrice))).sum

/-- Risk obligation on an operation: an open's signal keeps its stop
fraction within maxRiskPerTrade and carries a positive price; closes are
unconstrained. -/
def OpRiskOk (maxRiskPerTrade : ℚ) : Op → Prop
  | .openSig s => 0 < s.price ∧ |s.price - s.stopLoss| / s.price ≤ maxRiskPerTrade
  | .closePos _ _ _ => True

/-- Well-formedness of the position Map: ids are below the fresh-id
counter and pairwise distinct (Map keys are unique). -/
def IdsOk (st : PortfolioState) : Prop :=
  (∀ p ∈ st.positions, p.id < st.nextId) ∧
    st.positions.Pairwise (fun a b => a.id ≠ b.id)

/-- The cash-flow reconciliation the code actually maintains:
currentCapital plus committed open capital equals initialCapital plus the
signed cash difference of every closed trade. -/
def Recon (st : PortfolioState) : Prop :=
  st.currentCapital + getOpenPositionsValue st =
    st.initialCapital + cashDiffTotal st

/-- A closed trade's stored realizedPnL agrees with calculatePnL on its
own frozen fields. -/
def TradePnLOk (t : ClosedTrade) : Prop :=
  t.realizedPnL =
    t.size * (if t.side = "long" then t.closePrice - t.entryPrice
              else t.entryPrice - t.closePrice)

/-- Nonnegative per-position risk plus the aggregate risk bound: the
invariant the amended risk-budget claim carries through a trace. -/
def RiskOkInv (st : PortfolioState) : Prop :=
  (∀ p ∈ st.positions, 0 ≤ positionRisk p) ∧
    getCurrentPortfolioRisk st ≤ st.maxPortfolioRisk

/-! ### Webhook receiver (src/tradingview/WebhookReceiver.js)

The receiver state is the recentSignals Map, modelled as an
insertion-ordered list (ids are fresh, so Map.set appends).  Missing JSON
fields and absent headers are modelled with Option; a null/empty symbol or
action is the empty string.  HMAC-SHA256 is kept abstract as a function
parameter: only equality of hex digests matters to the control flow. -/

/-- A parsed inbound TradingView signal as built by parseWebhookData. -/
structure WebhookSignal where
  id : Nat
  symbol : String
  action : String
  timestamp : Int
  deriving DecidableEq

/-- Lower-casing as used by isValidSignal (action.toLowerCase()). -/
def lowerStr (s : String) : String :=
  String.mk (s.data.map Char.toLower)

/-- The symbol allow-list pattern of isValidSignal, the regex
[A-Z]{2,10}(USDT?|BTC|ETH) anchored at both ends, case-insensitive: some
suffix among USD/USDT/BTC/ETH follows 2 to 10 ASCII letters. -/
def symbolPatternOk (symbol : String) : Bool :=
  let up := symbol.data.map Char.toUpper
  ["USD", "USDT", "BTC", "ETH"].any (fun suf =>
    let sufChars := suf.data
    sufChars.isSuffixOf up &&
      (let stem := up.take (up.length - sufChars.length)
       decide (2 ≤ stem.length) && decide (stem.length ≤ 10) &&
         stem.all (fun c => c.isUpper)))

/-- isValidSignal: symbol and action present, symbol matches the
allow-list pattern, lowercased action recognized. -/
def isValidSignal (signal : WebhookSignal) : Bool :=
  if signal.symbol == "" || signal.action == "" then false
  else if !(symbolPatternOk signal.symbol) then false
  else if !(["buy", "sell", "close", "long", "short", "exit"].contains
      (lowerStr signal.action)) then false
  else true

/-- isDuplicateSignal: some stored signal shares symbol and action and
arrived less than signalTTL earlier (signed difference, as in the JS). -/
def isDuplicateSignal (signalTTL : Int) (recentSignals : List WebhookSignal)
    (signal : WebhookSignal) : Bool :=
  recentSignals.any (fun existing =>
    existing.symbol == signal.symbol && existing.action == signal.action &&
      decide (signal.timestamp - existing.timestamp < signalTTL))

/-- cleanOldSignals: drop entries older than 10 times the TTL. -/
def cleanOldSignals (signalTTL : Int) (now : Int)
    (recentSignals : List WebhookSignal) : List WebhookSignal :=
  recentSignals.filter (fun signal =>
    decide (now - signal.timestamp ≤ signalTTL * 10))

/-- The event processSignal emits for a signal. -/
inductive SignalEvent where
  | invalidSignal
  | buySignal
  | sellSignal
  | closeSignal
  | genericSignal
  deriving DecidableEq

/-- The event dispatch of processSignal: invalid signals only emit
invalidSignal; otherwise the switch on the (raw, not lowercased) action
picks the emitted event. -/
def signalEventFor (signal : WebhookSignal) : SignalEvent :=
  if !(isValidSignal signal) then .invalidSignal
  else if signal.action == "buy" || signal.action == "long" then .buySignal
  else if signal.action == "sell" || signal.action == "short" then .sellSignal
  else if signal.action == "close" || signal.action == "exit" then .closeSignal
  else .genericSignal

/-- processSignal: store the signal in the recent window (before any
validation), lazily sweep old entries, then dispatch. -/
def processSignal (signalTTL : Int) (recentSignals : List WebhookSignal)
    (signal : WebhookSignal) : List WebhookSignal × SignalEvent :=
  let recentAfter :=
    cleanOldSignals signalTTL signal.timestamp (recentSignals ++ [signal])
  (recentAfter, signalEventFor signal)

/-- verifySignature: skipped (true) when no secret is configured OR when
the request carries no signature header; otherwise the hex digest must
equal hmacHex secret payload (timingSafeEqual is equality up to timing). -/
def verifySignature (hmacHex : String → String → String)
    (webhookSecret : Option String) (payload : String)
    (signature : Option String) : Bool :=
  match webhookSecret, signature with
  | none, _ => true
  | some _, none => true
  | some secret, some sig => sig == hmacHex secret payload

/-- Receiver configuration. -/
structure ReceiverConfig where
  webhookSecret : Option String
  allowedIPs : List String
  signalTTL : Int
  deriving DecidableEq

/-- An inbound POST /webhook request: source ip, optional signature
header, raw body (input of the HMAC) and the signal parseWebhookData
extracts from the body. -/
structure WebhookRequest where
  ip : String
  signature : Option String
  rawBody : String
  signal : WebhookSignal
  deriving DecidableEq

/-- The observable response of the POST /webhook route. -/
inductive WebhookResponse where
  | forbidden403
  | unauthorized401
  | ok200received (signalId : Nat)
  | ok200duplicate
  deriving DecidableEq

/-- The full middleware + route pipeline for one POST /webhook request:
IP allow-list (skipped when empty), signature middleware (rejects only
when a secret is configured and verifySignature fails), duplicate check,
then processSignal.  Returns the response, the new recent-signal window
and the emitted event, if any. -/
def handleWebhook (hmacHex : String → String → String) (cfg : ReceiverConfig)
    (recentSignals : List WebhookSignal) (req : WebhookRequest) :
    WebhookResponse × List WebhookSignal × Option SignalEvent :=
  if decide (0 < cfg.allowedIPs.length) && !(cfg.allowedIPs.contains req.ip) then
    (.forbidden403, recentSignals, none)
  else if cfg.webhookSecret.isSome &&
      !(verifySignature hmacHex cfg.webhookSecret req.rawBody req.signature) then
    (.unauthorized401, recentSignals, none)
  else if isDuplicateSignal cfg.signalTTL recentSignals req.signal then
    (.ok200duplicate, recentSignals, none)
  else
    let processed := processSignal cfg.signalTTL recentSignals req.signal
    (.ok200received req.signal.id, processed.1, some processed.2)

/-- A request was admitted when it got the received response and its
signal passed validation, so an action event was emitted and the signal
handed on (enqueued) rather than reported invalid. -/
def Admitted (result : WebhookResponse × List WebhookSignal × Option SignalEvent) :
    Prop :=
  (∃ signalId, result.1 = .ok200received signalId) ∧
    result.2.2 ≠ none ∧ result.2.2 ≠ some .invalidSignal

/-! ### Concrete fixtures used by witnesses and counterexamples -/

/-- A long position fixture. -/
def posFix : Position :=
  { id := 0, symbol := "XY", strategy := "t", side := "long",
    entryPrice := 100, size := 2, stopLoss := 90, takeProfit := 120,
    unrealizedPnL := 0, maxDrawdown := 0, maxProfit := 0 }

/-- A portfolio holding exactly posFix. -/
def stFix : PortfolioState :=
  { defaultPortfolio with positions := [posFix], nextId := 1 }

/-- A long signal fixture. -/
def sigFix : Signal :=
  { symbol := "XY", strategy := "t", side := "long",
    price := 100, stopLoss := 90, takeProfit := 120 }

/-- The position of the spec's exit-determinism scenario:
entryPrice 100, stopLoss 98, takeProfit 106, long, any size. -/
def exitPos (size : ℚ) : Position :=
  { id := 0, symbol := "XY", strategy := "t", side := "long",
    entryPrice := 100, size := size, stopLoss := 98, takeProfit := 106,
    unrealizedPnL := 0, maxDrawdown := 0, maxProfit := 0 }

/-- The signal of the spec's sizing scenario: XAUUSD at 2000 with stop
1990. -/
def sizingSignal : Signal :=
  { symbol := "XAUUSD", strategy := "tv", side := "long",
    price := 2000, stopLoss := 1990, takeProfit := 2020 }

/-- A short position fixture: stop above, take-profit below. -/
def posShort : Position :=
  { posFix with side := "short", stopLoss := 110, takeProfit := 95 }

/-- A portfolio holding exactly the exit-scenario position of size 2. -/
def stExit : PortfolioState :=
  { defaultPortfolio with positions := [exitPos 2], nextId := 1 }

/-- A long signal whose stop fraction (1%) stays within the default 2%
per-trade risk. -/
def sigNarrow : Signal :=
  { symbol := "XY", strategy := "t", side := "long",
    price := 100, stopLoss := 99, takeProfit := 110 }

/-- A long signal with a very wide stop: its stop fraction is 50% of the
entry price. -/
def sigWide : Signal :=
  { symbol := "XY", strategy := "t", side := "long",
    price := 100, stopLoss := 50, takeProfit := 200 }

/-- A short signal fixture. -/
def sigShortC2 : Signal :=
  { symbol := "XY", strategy := "t", side := "short",
    price := 100, stopLoss := 99, takeProfit := 90 }

/-- A position 20% under water: unrealized PnL -200 on a 10 x 100
notional. -/
def posLoss : Position :=
  { id := 0, symbol := "XY", strategy := "t", side := "long",
    entryPrice := 100, size := 10, stopLoss := 50, takeProfit := 200,
    unrealizedPnL := -200, maxDrawdown := 0, maxProfit := 0 }

/-- A portfolio holding exactly posLoss. -/
def stLoss : PortfolioState :=
  { defaultPortfolio with positions := [posLoss], nextId := 1 }

/-- A position 30% in profit: unrealized PnL 300 on a 10 x 100
notional. -/
def posGain : Position :=
  { id := 0, symbol := "XY", strategy := "t", side := "long",
    entryPrice := 100, size := 10, stopLoss := 50, takeProfit := 200,
    unrealizedPnL := 300, maxDrawdown := 0, maxProfit := 0 }

/-- A portfolio holding exactly posGain. -/
def stGain : PortfolioState :=
  { defaultPortfolio with positions := [posGain], nextId := 1 }

/-- A constant stand-in HMAC for concrete webhook scenarios. -/
def hmacConst : String → String → String := fun _ _ => ""

/-- Receiver configuration with a shared secret, no IP allow-list and the
default 60 s TTL. -/
def cfgSecret : ReceiverConfig :=
  { webhookSecret := some "topsecret", allowedIPs := [], signalTTL := 60000 }

/-- Receiver configuration with no secret, no IP allow-list and the
default 60 s TTL. -/
def cfgOpen : ReceiverConfig :=
  { webhookSecret := none, allowedIPs := [], signalTTL := 60000 }

/-- Valid buy signals for ABUSD arriving at t = 0, 1, 2 ms. -/
def wsigA : WebhookSignal :=
  { id := 1, symbol := "ABUSD", action := "buy", timestamp := 0 }

def wsigB : WebhookSignal :=
  { id := 2, symbol := "ABUSD", action := "buy", timestamp := 1 }

def wsigC : WebhookSignal :=
  { id := 3, symbol := "ABUSD", action := "buy", timestamp := 2 }

/-- Signals with an unrecognized action (they fail validation). -/
def wsigH1 : WebhookSignal :=
  { id := 1, symbol := "ABUSD", action := "hold", timestamp := 0 }

def wsigH2 : WebhookSignal :=
  { id := 2, symbol := "ABUSD", action := "hold", timestamp := 1 }

/-- Wrap a signal in an unsigned request. -/
def mkReq (s : WebhookSignal) : WebhookRequest :=
  { ip := "9.9.9.9", signature := none, rawBody := "", signal := s }

def reqA : WebhookRequest := mkReq wsigA

def reqB : WebhookRequest := mkReq wsigB

def reqC : WebhookRequest := mkReq wsigC

def reqH1 : WebhookRequest := mkReq wsigH1

def reqH2 : WebhookRequest := mkReq wsigH2

/-! ## Verification -/

/-- Folding addition of f over a list sums the mapped list. -/
theorem foldl_add_eq_sum {α : Type} (f : α → ℚ) (l : List α) : ∀ a : ℚ,
    l.foldl (fun acc x => acc + f x) a = a + (l.map f).sum := by
  induction l with
  | nil => intro a; simp
  | cons x l ih =>
    intro a
    simp only [List.foldl_cons, List.map_cons, List.sum_cons, ih (a + f x)]
    ring

/-- getCurrentPortfolioRisk as a mapped sum. -/
theorem getCurrentPortfolioRisk_eq (st : PortfolioState) :
    getCurrentPortfolioRisk st = (st.positions.map positionRisk).sum := by
  unfold getCurrentPortfolioRisk
  rw [foldl_add_eq_sum]
  ring

/-- getOpenPositionsValue as a mapped sum. -/
theorem getOpenPositionsValue_eq (st : PortfolioState) :
    getOpenPositionsValue st = (st.positions.map positionNotional).sum := by
  unfold getOpenPositionsValue
  rw [foldl_add_eq_sum]
  ring

/-- closePosition on an id absent from the open set returns none. -/
theorem closePosition_none {st : PortfolioState} {pid : Nat} (price : ℚ)
    (reason : String)
    (h : st.positions.find? (fun q => q.id == pid) = none) :
    closePosition st pid price reason = none := by
  simp [closePosition, h]

/-- closePosition on a found position: the exact state update. -/
theorem closePosition_some {st : PortfolioState} {pid : Nat} {p : Position}
    (price : ℚ) (reason : String)
    (h : st.positions.find? (fun q => q.id == pid) = some p) :
    closePosition st pid price reason =
      some ({ st with
              closedTrades := st.closedTrades ++ [closedTradeOf p price reason]
              positions := st.positions.filter (fun q => q.id != pid)
              currentCapital := st.currentCapital + p.size * price },
            closedTradeOf p price reason) := by
  simp [closePosition, h]

/-- Filtering out an id leaves no position with that id. -/
theorem filter_ne_id (l : List Position) (pid : Nat) :
    ∀ q ∈ l.filter (fun q => q.id != pid), q.id ≠ pid := by
  intro q hq
  have := (List.mem_filter.mp hq).2
  simpa using this

/-- find? for an id returns none on a list without that id. -/
theorem find?_eq_none_of_no_id {l : List Position} {pid : Nat}
    (h : ∀ q ∈ l, q.id ≠ pid) :
    l.find? (fun q => q.id == pid) = none := by
  rw [List.find?_eq_none]
  intro q hq
  simpa using h q hq

/-- C7: a first closePosition call on a present id appends exactly one
ClosedTrade and removes the position from the open set; a second call on
the same id, or any call on an absent id, returns a not-found result and
leaves the state (open set, closed trades, capital) unchanged. -/
theorem C7_idempotent_close :
    (∀ (st : PortfolioState) (pid : Nat) (price : ℚ) (reason : String),
        (∀ q ∈ st.positions, q.id ≠ pid) →
        closePosition st pid price reason = none ∧
        applyOp st (Op.closePos pid price reason) = st) ∧
    (∀ (st : PortfolioState) (pid : Nat) (price price2 : ℚ)
        (reason reason2 : String) (p : Position),
        st.positions.find? (fun q => q.id == pid) = some p →
        ∃ st' trade, closePosition st pid price reason = some (st', trade) ∧
          st'.closedTrades = st.closedTrades ++ [trade] ∧
          st'.positions = st.positions.filter (fun q => q.id != pid) ∧
          (∀ q ∈ st'.positions, q.id ≠ pid) ∧
          closePosition st' pid price2 reason2 = none ∧
          applyOp st' (Op.closePos pid price2 reason2) = st') := by
  constructor
  · intro st pid price reason h
    have hn := @closePosition_none st pid price reason
      (find?_eq_none_of_no_id h)
    exact ⟨hn, by simp [applyOp, hn]⟩
  · intro st pid price price2 reason reason2 p h
    have hno : ∀ q ∈ st.positions.filter (fun q => q.id != pid), q.id ≠ pid :=
      filter_ne_id st.positions pid
    have hnone :
        closePosition
          { st with
            closedTrades := st.closedTrades ++ [closedTradeOf p price reason]
            positions := st.positions.filter (fun q => q.id != pid)
            currentCapital := st.currentCapital + p.size * price }
          pid price2 reason2 = none :=
      closePosition_none price2 reason2 (find?_eq_none_of_no_id hno)
    refine ⟨_, _, closePosition_some price reason h, rfl, rfl, hno, hnone, ?_⟩
    simp [applyOp, hnone]

/-- openPosition under a passing admission check: the exact state
update. -/
theorem openPosition_of_canOpen {st : PortfolioState} {signal : Signal}
    (h : canOpenPosition st signal.symbol signal.strategy signal.price = true) :
    openPosition st signal =
      some ({ st with
              positions := st.positions ++ [openedPositionOf st signal]
              currentCapital :=
                st.currentCapital - calculatePositionSize st signal * signal.price
              nextId := st.nextId + 1 },
            openedPositionOf st signal) := by
  simp [openPosition, h]

/-- openPosition under a failing admission check returns none. -/
theorem openPosition_of_not_canOpen {st : PortfolioState} {signal : Signal}
    (h : canOpenPosition st signal.symbol signal.strategy signal.price = false) :
    openPosition st signal = none := by
  simp [openPosition, h]

/-- find? for an id on l ++ [pos] finds pos when no element of l has the
id and pos does. -/
theorem find?_append_singleton {l : List Position} {pos : Position} {pid : Nat}
    (hl : ∀ q ∈ l, q.id ≠ pid) (hpos : pos.id = pid) :
    (l ++ [pos]).find? (fun q => q.id == pid) = some pos := by
  induction l with
  | nil => simp [List.find?, hpos]
  | cons x l ih =>
    have hx : (x.id == pid) = false := by
      simpa using hl x (by simp)
    simp only [List.cons_append, List.find?_cons, hx]
    exact ih (fun q hq => hl q (by simp [hq]))

/-- Closing at the entry price realizes zero PnL, for either side. -/
theorem calculatePnL_at_entry (p : Position) :
    calculatePnL p p.entryPrice = 0 := by
  unfold calculatePnL
  split <;> ring

/-- C8: an admitted open followed by a close at the entry price returns
currentCapital to its pre-open value and realizes zero PnL, whatever the
side of the signal. -/
theorem C8_open_close_round_trip (st : PortfolioState) (signal : Signal)
    (hfresh : ∀ q ∈ st.positions, q.id ≠ st.nextId)
    (hcan : canOpenPosition st signal.symbol signal.strategy signal.price = true) :
    ∃ st1 pos st2 trade,
      openPosition st signal = some (st1, pos) ∧
      closePosition st1 pos.id signal.price "manual" = some (st2, trade) ∧
      st2.currentCapital = st.currentCapital ∧
      trade.realizedPnL = 0 := by
  have hopen := openPosition_of_canOpen hcan
  have hfind : ((st.positions ++ [openedPositionOf st signal]).find?
      (fun q => q.id == (openedPositionOf st signal).id)) =
        some (openedPositionOf st signal) :=
    find?_append_singleton hfresh rfl
  have hclose :=
    @closePosition_some
      { st with
        positions := st.positions ++ [openedPositionOf st signal]
        currentCapital :=
          st.currentCapital - calculatePositionSize st signal * signal.price
        nextId := st.nextId + 1 }
      (openedPositionOf st signal).id (openedPositionOf st signal)
      signal.price "manual" hfind
  refine ⟨_, _, _, _, hopen, hclose, ?_, ?_⟩
  · show st.currentCapital - calculatePositionSize st signal * signal.price +
        calculatePositionSize st signal * signal.price = st.currentCapital
    ring
  · show calculatePnL (openedPositionOf st signal) signal.price = 0
    have h : signal.price = (openedPositionOf st signal).entryPrice := rfl
    rw [h, calculatePnL_at_entry]

/-- Witness for C8: open sigFix on the default portfolio and close at the
entry price 100. -/
theorem C8_open_close_round_trip_witness :
    ∃ st1 pos st2 trade,
      openPosition defaultPortfolio sigFix = some (st1, pos) ∧
      closePosition st1 pos.id sigFix.price "manual" = some (st2, trade) ∧
      st2.currentCapital = defaultPortfolio.currentCapital ∧
      trade.realizedPnL = 0 :=
  C8_open_close_round_trip defaultPortfolio sigFix
    (by simp [defaultPortfolio, mkPortfolio])
    (by with_unfolding_all decide)

/-- Witness for C7 at a concrete portfolio: close position 0 of stFix
twice at price 95. -/
theorem C7_idempotent_close_witness :
    ∃ st' trade, closePosition stFix 0 95 "manual" = some (st', trade) ∧
      st'.closedTrades = stFix.closedTrades ++ [trade] ∧
      st'.positions = stFix.positions.filter (fun q => q.id != 0) ∧
      (∀ q ∈ st'.positions, q.id ≠ 0) ∧
      closePosition st' 0 95 "manual" = none ∧
      applyOp st' (Op.closePos 0 95 "manual") = st' :=
  C7_idempotent_close.2 stFix 0 95 95 "manual" "manual" posFix
    (by with_unfolding_all decide)

/-- C5: with a non-zero stop, calculatePositionSize is exactly the spec
formula min(availableCapital*maxRiskPerTrade / stopDistanceFraction,
0.8*availableCapital) / price; on the documented scenario (capital 10000,
maxRiskPerTrade 0.02, price 2000, stop 1990) the raw size is 20 units,
capped to a final size of 4 units. -/
theorem C5_position_sizing :
    (∀ (st : PortfolioState) (signal : Signal), signal.stopLoss ≠ 0 →
      calculatePositionSize st signal =
        min (getAvailableCapital st * st.maxRiskPerTrade /
              (|signal.price - signal.stopLoss| / signal.price))
          ((8/10) * getAvailableCapital st) / signal.price) ∧
    calculatePositionSize defaultPortfolio sizingSignal = 4 ∧
    defaultPortfolio.currentCapital * defaultPortfolio.maxRiskPerTrade /
        (|sizingSignal.price - sizingSignal.stopLoss| / sizingSignal.price) /
        sizingSignal.price = 20 := by
  refine ⟨?_, ?_, ?_⟩
  · intro st signal _
    simp [calculatePositionSize, getAvailableCapital, mul_comm]
  · norm_num [calculatePositionSize, getAvailableCapital, defaultPortfolio,
      mkPortfolio, sizingSignal]
  · norm_num [defaultPortfolio, mkPortfolio, sizingSignal]

/-- Witness for C5: the formula instantiated on the default portfolio and
sigFix (stop 90, non-zero). -/
theorem C5_position_sizing_witness :
    calculatePositionSize defaultPortfolio sigFix =
      min (getAvailableCapital defaultPortfolio * defaultPortfolio.maxRiskPerTrade /
            (|sigFix.price - sigFix.stopLoss| / sigFix.price))
        ((8/10) * getAvailableCapital defaultPortfolio) / sigFix.price :=
  C5_position_sizing.1 defaultPortfolio sigFix (by decide)

/-- C4: exit determinism of checkExitConditions.  For longs: stop-loss
fires on price ≤ stopLoss (and takes priority when the take-profit
threshold is crossed in the same tick, since it is tested first),
take-profit on price ≥ takeProfit, nothing otherwise; shorts are the
mirror image; and the spec's concrete scenario (entry 100, stop 98, tp
106, long): a tick of 97 closes the position with reason stop_loss and
realizedPnL = size*(97-100), a tick of 107 exits with take_profit. -/
theorem C4_exit_determinism :
    (∀ (p : Position) (price : ℚ), p.side = "long" →
      (price ≤ p.stopLoss → checkExitReason p price = some "stop_loss") ∧
      (p.stopLoss < price → p.takeProfit ≤ price →
        checkExitReason p price = some "take_profit") ∧
      (p.stopLoss < price → price < p.takeProfit →
        checkExitReason p price = none)) ∧
    (∀ (p : Position) (price : ℚ), p.side ≠ "long" →
      (p.stopLoss ≤ price → checkExitReason p price = some "stop_loss") ∧
      (price < p.stopLoss → price ≤ p.takeProfit →
        checkExitReason p price = some "take_profit") ∧
      (price < p.stopLoss → p.takeProfit < price →
        checkExitReason p price = none)) ∧
    (∀ (size : ℚ) (st : PortfolioState), st.positions = [exitPos size] →
      checkExitReason (exitPos size) 97 = some "stop_loss" ∧
      calculatePnL (exitPos size) 97 = size * (97 - 100) ∧
      checkExitReason (exitPos size) 107 = some "take_profit" ∧
      checkExitConditions st 0 (exitPos size) 97 =
        { st with
          closedTrades :=
            st.closedTrades ++ [closedTradeOf (exitPos size) 97 "stop_loss"]
          positions := []
          currentCapital := st.currentCapital + size * 97 } ∧
      (closedTradeOf (exitPos size) 97 "stop_loss").realizedPnL =
        size * (97 - 100) ∧
      (closedTradeOf (exitPos size) 97 "stop_loss").reason = "stop_loss") := by
  refine ⟨?_, ?_, ?_⟩
  · intro p price hside
    refine ⟨?_, ?_, ?_⟩
    · intro h
      simp [checkExitReason, hside, h]
    · intro h1 h2
      simp [checkExitReason, hside, not_le.mpr h1, h2]
    · intro h1 h2
      simp [checkExitReason, hside, not_le.mpr h1, not_le.mpr h2]
  · intro p price hside
    refine ⟨?_, ?_, ?_⟩
    · intro h
      simp [checkExitReason, hside, h]
    · intro h1 h2
      simp [checkExitReason, hside, not_le.mpr h1, h2]
    · intro h1 h2
      simp [checkExitReason, hside, not_le.mpr h1, not_le.mpr h2]
  · intro size st hst
    have hreason : checkExitReason (exitPos size) 97 = some "stop_loss" := by
      norm_num [checkExitReason, exitPos]
    have hfind : st.positions.find? (fun q => q.id == 0) = some (exitPos size) := by
      rw [hst]
      simp [List.find?, exitPos]
    have hclose := @closePosition_some st 0 (exitPos size) 97 "stop_loss" hfind
    refine ⟨hreason, ?_, ?_, ?_, ?_, rfl⟩
    · norm_num [calculatePnL, exitPos]
    · norm_num [checkExitReason, exitPos]
    · unfold checkExitConditions
      rw [hreason]
      dsimp only
      rw [hclose]
      dsimp only
      rw [hst]
      simp [exitPos, List.filter]
    · norm_num [closedTradeOf, calculatePnL, exitPos]

/-- Witness for C4: long stop at price 80 on posFix, short stop at price
112 on posShort, and the concrete 97/107 scenario at size 2 in stExit. -/
theorem C4_exit_determinism_witness :
    checkExitReason posFix 80 = some "stop_loss" ∧
    checkExitReason posShort 112 = some "stop_loss" ∧
    (checkExitReason (exitPos 2) 97 = some "stop_loss" ∧
      calculatePnL (exitPos 2) 97 = 2 * (97 - 100) ∧
      checkExitReason (exitPos 2) 107 = some "take_profit" ∧
      checkExitConditions stExit 0 (exitPos 2) 97 =
        { stExit with
          closedTrades :=
            stExit.closedTrades ++ [closedTradeOf (exitPos 2) 97 "stop_loss"]
          positions := []
          currentCapital := stExit.currentCapital + 2 * 97 } ∧
      (closedTradeOf (exitPos 2) 97 "stop_loss").realizedPnL = 2 * (97 - 100) ∧
      (closedTradeOf (exitPos 2) 97 "stop_loss").reason = "stop_loss") :=
  ⟨(C4_exit_determinism.1 posFix 80 rfl).1 (by decide),
   (C4_exit_determinism.2.1 posShort 112 (by decide)).1 (by decide),
   C4_exit_determinism.2.2 2 stExit rfl⟩

/-- applyOp on an admitted open: the exact state update. -/
theorem applyOp_openSig_some (st : PortfolioState) (s : Signal)
    (hcan : canOpenPosition st s.symbol s.strategy s.price = true) :
    applyOp st (Op.openSig s) =
      { st with
        positions := st.positions ++ [openedPositionOf st s]
        currentCapital :=
          st.currentCapital - calculatePositionSize st s * s.price
        nextId := st.nextId + 1 } := by
  simp [applyOp, openPosition_of_canOpen hcan]

/-- applyOp on a rejected open leaves the state unchanged. -/
theorem applyOp_openSig_none (st : PortfolioState) (s : Signal)
    (hcan : canOpenPosition st s.symbol s.strategy s.price = false) :
    applyOp st (Op.openSig s) = st := by
  simp [applyOp, openPosition_of_not_canOpen hcan]

/-- applyOp on a close of a present id: the exact state update. -/
theorem applyOp_closePos_some (st : PortfolioState) (pid : Nat) (price : ℚ)
    (reason : String) (p : Position)
    (hfind : st.positions.find? (fun q => q.id == pid) = some p) :
    applyOp st (Op.closePos pid price reason) =
      { st with
        closedTrades := st.closedTrades ++ [closedTradeOf p price reason]
        positions := st.positions.filter (fun q => q.id != pid)
        currentCapital := st.currentCapital + p.size * price } := by
  simp [applyOp, closePosition_some price reason hfind]

/-- applyOp on a close of an absent id leaves the state unchanged. -/
theorem applyOp_closePos_none (st : PortfolioState) (pid : Nat) (price : ℚ)
    (reason : String)
    (hfind : st.positions.find? (fun q => q.id == pid) = none) :
    applyOp st (Op.closePos pid price reason) = st := by
  simp [applyOp, closePosition_none price reason hfind]

/-- applyOp never touches the configuration fields. -/
theorem applyOp_config (st : PortfolioState) (op : Op) :
    (applyOp st op).maxRiskPerTrade = st.maxRiskPerTrade ∧
    (applyOp st op).maxPortfolioRisk = st.maxPortfolioRisk ∧
    (applyOp st op).initialCapital = st.initialCapital := by
  cases op with
  | openSig s =>
    cases hcan : canOpenPosition st s.symbol s.strategy s.price
    · rw [applyOp_openSig_none st s hcan]
      exact ⟨rfl, rfl, rfl⟩
    · rw [applyOp_openSig_some st s hcan]
      exact ⟨rfl, rfl, rfl⟩
  | closePos pid price reason =>
    cases hfind : st.positions.find? (fun q => q.id == pid) with
    | none =>
      rw [applyOp_closePos_none st pid price reason hfind]
      exact ⟨rfl, rfl, rfl⟩
    | some p =>
      rw [applyOp_closePos_some st pid price reason p hfind]
      exact ⟨rfl, rfl, rfl⟩

/-- applyTrace never touches the configuration fields. -/
theorem applyTrace_config : ∀ (ops : List Op) (st : PortfolioState),
    (applyTrace st ops).maxRiskPerTrade = st.maxRiskPerTrade ∧
    (applyTrace st ops).maxPortfolioRisk = st.maxPortfolioRisk ∧
    (applyTrace st ops).initialCapital = st.initialCapital := by
  intro ops
  induction ops with
  | nil => intro st; exact ⟨rfl, rfl, rfl⟩
  | cons op ops ih =>
    intro st
    have h1 := applyOp_config st op
    have h2 := ih (applyOp st op)
    exact ⟨h2.1.trans h1.1, h2.2.1.trans h1.2.1, h2.2.2.trans h1.2.2⟩

/-- Filtering can only shrink a sum of nonnegative values. -/
theorem sum_map_filter_le (f : Position → ℚ) (pred : Position → Bool) :
    ∀ (l : List Position), (∀ x ∈ l, 0 ≤ f x) →
      ((l.filter pred).map f).sum ≤ (l.map f).sum := by
  intro l
  induction l with
  | nil => intro _; simp
  | cons a l ih =>
    intro h
    have hl := ih (fun x hx => h x (List.mem_cons_of_mem a hx))
    have ha := h a (List.mem_cons_self a l)
    by_cases hp : pred a = true
    · rw [List.filter_cons_of_pos hp, List.map_cons, List.sum_cons,
        List.map_cons, List.sum_cons]
      linarith
    · rw [List.filter_cons_of_neg hp, List.map_cons, List.sum_cons]
      linarith

/-- Filtering out the id that find? locates subtracts exactly that
position's value from a mapped sum, when ids are pairwise distinct. -/
theorem sum_map_filter_ne (f : Position → ℚ) (pid : Nat) :
    ∀ (l : List Position), l.Pairwise (fun a b => a.id ≠ b.id) →
      ∀ p, l.find? (fun q => q.id == pid) = some p →
      ((l.filter (fun q => q.id != pid)).map f).sum = (l.map f).sum - f p := by
  intro l
  induction l with
  | nil => intro _ p hp; simp at hp
  | cons a l ih =>
    intro hpw p hp
    obtain ⟨ha, hl⟩ := List.pairwise_cons.mp hpw
    by_cases hid : a.id = pid
    · rw [List.find?_cons_of_pos _ (by simpa using hid)] at hp
      have hap : a = p := Option.some.inj hp
      subst hap
      have hkeep : l.filter (fun q => q.id != pid) = l :=
        List.filter_eq_self.mpr (fun q hq => by
          have hne : q.id ≠ pid := fun hcontra => ha q hq (hid.trans hcontra.symm)
          simpa using hne)
      rw [List.filter_cons_of_neg (by simpa using hid), hkeep,
        List.map_cons, List.sum_cons]
      ring
    · rw [List.find?_cons_of_neg _ (by simpa using hid)] at hp
      rw [List.filter_cons_of_pos (by simpa using hid), List.map_cons,
        List.sum_cons, List.map_cons, List.sum_cons, ih hl p hp]
      ring

/-- One portfolio call preserves id well-formedness, the cash
reconciliation and the per-trade PnL bookkeeping. -/
theorem applyOp_invariants (st : PortfolioState) (op : Op)
    (hids : IdsOk st) (hrec : Recon st)
    (hpnl : ∀ t ∈ st.closedTrades, TradePnLOk t) :
    IdsOk (applyOp st op) ∧ Recon (applyOp st op) ∧
      ∀ t ∈ (applyOp st op).closedTrades, TradePnLOk t := by
  obtain ⟨hbound, hpw⟩ := hids
  cases op with
  | openSig s =>
    cases hcan : canOpenPosition st s.symbol s.strategy s.price with
    | false =>
      rw [applyOp_openSig_none st s hcan]
      exact ⟨⟨hbound, hpw⟩, hrec, hpnl⟩
    | true =>
      rw [applyOp_openSig_some st s hcan]
      refine ⟨⟨?_, ?_⟩, ?_, ?_⟩
      · intro q hq
        rcases List.mem_append.mp hq with h | h
        · exact Nat.lt_succ_of_lt (hbound q h)
        · rw [List.mem_singleton.mp h]
          exact Nat.lt_succ_self st.nextId
      · rw [List.pairwise_append]
        refine ⟨hpw, by simp, ?_⟩
        intro a hha b hb
        rw [List.mem_singleton.mp hb]
        exact Nat.ne_of_lt (hbound a hha)
      · unfold Recon at hrec ⊢
        rw [getOpenPositionsValue_eq] at hrec ⊢
        simp only [List.map_append, List.sum_append, List.map_cons,
          List.map_nil, List.sum_cons, List.sum_nil]
        have hnot : positionNotional (openedPositionOf st s) =
            calculatePositionSize st s * s.price := rfl
        rw [hnot]
        unfold cashDiffTotal at hrec ⊢
        linarith
      · intro t ht
        exact hpnl t ht
  | closePos pid price reason =>
    cases hfind : st.positions.find? (fun q => q.id == pid) with
    | none =>
      rw [applyOp_closePos_none st pid price reason hfind]
      exact ⟨⟨hbound, hpw⟩, hrec, hpnl⟩
    | some p =>
      rw [applyOp_closePos_some st pid price reason p hfind]
      refine ⟨⟨?_, ?_⟩, ?_, ?_⟩
      · intro q hq
        exact hbound q (List.mem_of_mem_filter hq)
      · exact List.Pairwise.sublist (List.filter_sublist _) hpw
      · unfold Recon at hrec ⊢
        rw [getOpenPositionsValue_eq] at hrec ⊢
        unfold cashDiffTotal at hrec ⊢
        have hsum := sum_map_filter_ne positionNotional pid st.positions hpw p hfind
        simp only [List.map_append, List.sum_append, List.map_cons,
          List.map_nil, List.sum_cons, List.sum_nil]
        rw [hsum]
        have hnot : positionNotional p = p.size * p.entryPrice := rfl
        have hcd : (closedTradeOf p price reason).size *
            ((closedTradeOf p price reason).closePrice -
              (closedTradeOf p price reason).entryPrice) =
            p.size * price - p.size * p.entryPrice := by
          show p.size * (price - p.entryPrice) = p.size * price - p.size * p.entryPrice
          ring
        rw [hcd, hnot]
        linarith
      · intro t ht
        rcases List.mem_append.mp ht with h | h
        · exact hpnl t h
        · rw [List.mem_singleton.mp h]
          show TradePnLOk (closedTradeOf p price reason)
          unfold TradePnLOk closedTradeOf calculatePnL
          rfl

/-- A whole trace preserves the three portfolio invariants. -/
theorem applyTrace_invariants : ∀ (ops : List Op) (st : PortfolioState),
    IdsOk st → Recon st → (∀ t ∈ st.closedTrades, TradePnLOk t) →
    IdsOk (applyTrace st ops) ∧ Recon (applyTrace st ops) ∧
      ∀ t ∈ (applyTrace st ops).closedTrades, TradePnLOk t := by
  intro ops
  induction ops with
  | nil => intro st h1 h2 h3; exact ⟨h1, h2, h3⟩
  | cons op ops ih =>
    intro st h1 h2 h3
    obtain ⟨g1, g2, g3⟩ := applyOp_invariants st op h1 h2 h3
    exact ih (applyOp st op) g1 g2 g3

/-- The fixture symbol XY belongs to no correlation group. -/
theorem corrXY : getCorrelatedSymbols "XY" = [] := by
  with_unfolding_all decide

/-- When every closed trade is long, the cash a close moves equals its
realized PnL, so the two reconciliation sums agree. -/
theorem cashDiff_eq_realized_of_long (st : PortfolioState)
    (hpnl : ∀ t ∈ st.closedTrades, TradePnLOk t)
    (hlong : ∀ t ∈ st.closedTrades, t.side = "long") :
    cashDiffTotal st = realizedTotal st := by
  unfold cashDiffTotal realizedTotal
  congr 1
  apply List.map_congr_left
  intro t ht
  have h1 := hpnl t ht
  unfold TradePnLOk at h1
  rw [h1, if_pos (hlong t ht)]

/-- C2 (amended): at every state reached from a fresh portfolio by any
sequence of openPosition/closePosition calls, currentCapital plus the
committed capital of open positions equals initialCapital plus the sum
over closed trades of size*(closePrice - entryPrice); this equals the sum
of realizedPnL exactly when every closed trade is long (the original
claim), since closePosition credits size*closePrice regardless of side
while short PnL has the opposite sign. -/
theorem C2_capital_reconciliation (c mrpt mpr : ℚ) (n : Nat) (ops : List Op) :
    ((applyTrace (mkPortfolio c mrpt mpr n) ops).currentCapital +
        getOpenPositionsValue (applyTrace (mkPortfolio c mrpt mpr n) ops) =
      (applyTrace (mkPortfolio c mrpt mpr n) ops).initialCapital +
        cashDiffTotal (applyTrace (mkPortfolio c mrpt mpr n) ops)) ∧
    ((∀ t ∈ (applyTrace (mkPortfolio c mrpt mpr n) ops).closedTrades,
        t.side = "long") →
      (applyTrace (mkPortfolio c mrpt mpr n) ops).currentCapital +
          getOpenPositionsValue (applyTrace (mkPortfolio c mrpt mpr n) ops) =
        (applyTrace (mkPortfolio c mrpt mpr n) ops).initialCapital +
          realizedTotal (applyTrace (mkPortfolio c mrpt mpr n) ops)) := by
  have h0ids : IdsOk (mkPortfolio c mrpt mpr n) := by
    constructor
    · intro p hp
      simp [mkPortfolio] at hp
    · simp [mkPortfolio]
  have h0rec : Recon (mkPortfolio c mrpt mpr n) := by
    unfold Recon cashDiffTotal
    simp [mkPortfolio, getOpenPositionsValue_eq]
  have h0pnl : ∀ t ∈ (mkPortfolio c mrpt mpr n).closedTrades, TradePnLOk t := by
    intro t ht
    simp [mkPortfolio] at ht
  obtain ⟨_, hr, hp⟩ := applyTrace_invariants ops _ h0ids h0rec h0pnl
  refine ⟨hr, fun hlong => ?_⟩
  rw [← cashDiff_eq_realized_of_long _ hp hlong]
  exact hr

/-- Witness for C2: the all-long projection instantiated on the empty
trace over the default configuration. -/
theorem C2_capital_reconciliation_witness :
    (∀ t ∈ (applyTrace (mkPortfolio 10000 (2/100) (10/100) 5) []).closedTrades,
      t.side = "long") ∧
    ((applyTrace (mkPortfolio 10000 (2/100) (10/100) 5) []).currentCapital +
        getOpenPositionsValue (applyTrace (mkPortfolio 10000 (2/100) (10/100) 5) []) =
      (applyTrace (mkPortfolio 10000 (2/100) (10/100) 5) []).initialCapital +
        realizedTotal (applyTrace (mkPortfolio 10000 (2/100) (10/100) 5) [])) :=
  ⟨by simp [applyTrace, mkPortfolio],
   (C2_capital_reconciliation 10000 (2/100) (10/100) 5 []).2
     (by simp [applyTrace, mkPortfolio])⟩

/-- Counterexample to C2 as stated: opening a short (entry 100, size 80)
and closing it at 90 leaves currentCapital + open notional = 9200, while
initialCapital + realized PnL = 10000 + 800 = 10800: the stated
reconciliation fails for short positions. -/
theorem C2_capital_reconciliation_counterexample :
    (applyTrace defaultPortfolio
        [Op.openSig sigShortC2, Op.closePos 0 90 "manual"]).currentCapital +
      getOpenPositionsValue
        (applyTrace defaultPortfolio
          [Op.openSig sigShortC2, Op.closePos 0 90 "manual"]) ≠
    (applyTrace defaultPortfolio
        [Op.openSig sigShortC2, Op.closePos 0 90 "manual"]).initialCapital +
      realizedTotal
        (applyTrace defaultPortfolio
          [Op.openSig sigShortC2, Op.closePos 0 90 "manual"]) := by
  norm_num [applyTrace, applyOp, openPosition, openedPositionOf, canOpenPosition,
    checkCorrelationLimit, corrXY, checkRiskBudget, getCurrentPortfolioRisk,
    positionRisk, getAvailableCapital, calculatePositionSize, closePosition,
    closedTradeOf, calculatePnL, getOpenPositionsValue_eq, positionNotional,
    realizedTotal, defaultPortfolio, mkPortfolio, sigShortC2, List.find?,
    show (("short" : String) = "long") = False by simp]

/-- One operation preserves the risk invariant, provided the operation
obeys the per-trade risk obligation of the state's configuration. -/
theorem applyOp_RiskOkInv (st : PortfolioState) (op : Op)
    (hop : OpRiskOk st.maxRiskPerTrade op) (hinv : RiskOkInv st) :
    RiskOkInv (applyOp st op) := by
  obtain ⟨hpos, hsum⟩ := hinv
  cases op with
  | openSig s =>
    cases hcan : canOpenPosition st s.symbol s.strategy s.price with
    | false =>
      rw [applyOp_openSig_none st s hcan]
      exact ⟨hpos, hsum⟩
    | true =>
      rw [applyOp_openSig_some st s hcan]
      obtain ⟨hp, hle⟩ := hop
      have hbudget : getCurrentPortfolioRisk st + st.maxRiskPerTrade ≤
          st.maxPortfolioRisk := by
        have h3 : checkRiskBudget st = true := by
          unfold canOpenPosition at hcan
          simp only [Bool.and_eq_true] at hcan
          exact hcan.1.2
        unfold checkRiskBudget at h3
        simpa using h3
      constructor
      · intro q hq
        rcases List.mem_append.mp hq with h | h
        · exact hpos q h
        · rw [List.mem_singleton.mp h]
          show 0 ≤ positionRisk (openedPositionOf st s)
          unfold positionRisk
          exact div_nonneg (abs_nonneg _) (le_of_lt hp)
      · have goal : ((st.positions ++ [openedPositionOf st s]).map positionRisk).sum ≤
            st.maxPortfolioRisk := by
          simp only [List.map_append, List.sum_append, List.map_cons,
            List.map_nil, List.sum_cons, List.sum_nil]
          have hnew : positionRisk (openedPositionOf st s) =
              |s.price - s.stopLoss| / s.price := rfl
          rw [hnew]
          rw [getCurrentPortfolioRisk_eq] at hsum hbudget
          linarith
        rw [getCurrentPortfolioRisk_eq]
        exact goal
  | closePos pid price reason =>
    cases hfind : st.positions.find? (fun q => q.id == pid) with
    | none =>
      rw [applyOp_closePos_none st pid price reason hfind]
      exact ⟨hpos, hsum⟩
    | some p =>
      rw [applyOp_closePos_some st pid price reason p hfind]
      constructor
      · intro q hq
        exact hpos q (List.mem_of_mem_filter hq)
      · have goal : ((st.positions.filter (fun q => q.id != pid)).map
            positionRisk).sum ≤ st.maxPortfolioRisk := by
          have hle := sum_map_filter_le positionRisk (fun q => q.id != pid)
            st.positions hpos
          rw [getCurrentPortfolioRisk_eq] at hsum
          linarith
        rw [getCurrentPortfolioRisk_eq]
        exact goal

/-- A whole trace of risk-obeying operations preserves the risk
invariant. -/
theorem applyTrace_RiskOkInv : ∀ (ops : List Op) (st : PortfolioState),
    (∀ op ∈ ops, OpRiskOk st.maxRiskPerTrade op) → RiskOkInv st →
    RiskOkInv (applyTrace st ops) := by
  intro ops
  induction ops with
  | nil => intro st _ h; exact h
  | cons op ops ih =>
    intro st hops hinv
    have hstep := applyOp_RiskOkInv st op (hops op (List.mem_cons_self op ops)) hinv
    apply ih (applyOp st op) _ hstep
    intro o ho
    rw [(applyOp_config st op).1]
    exact hops o (List.mem_cons_of_mem op ho)

/-- C1 (amended): over any sequence of calls from a fresh portfolio with
0 ≤ maxPortfolioRisk, in which every opened signal has positive price and
a stop fraction |price - stopLoss|/price at most maxRiskPerTrade, the sum
of open-position risk fractions stays within maxPortfolioRisk after every
admission.  (Without that per-signal bound the guard only ensures the sum
before admission plus maxRiskPerTrade is within budget, and the invariant
fails: see the counterexample.) -/
theorem C1_risk_budget (c mrpt mpr : ℚ) (n : Nat) (ops : List Op)
    (hmpr : 0 ≤ mpr)
    (hops : ∀ op ∈ ops, OpRiskOk mrpt op) :
    getCurrentPortfolioRisk (applyTrace (mkPortfolio c mrpt mpr n) ops) ≤ mpr := by
  have h0 : RiskOkInv (mkPortfolio c mrpt mpr n) := by
    constructor
    · intro p hp
      simp [mkPortfolio] at hp
    · rw [getCurrentPortfolioRisk_eq]
      simpa [mkPortfolio] using hmpr
  have hinv := applyTrace_RiskOkInv ops (mkPortfolio c mrpt mpr n)
    (by intro op ho; simpa [mkPortfolio] using hops op ho) h0
  have hmprEq := (applyTrace_config ops (mkPortfolio c mrpt mpr n)).2.1
  have hfin := hinv.2
  rw [hmprEq] at hfin
  simpa [mkPortfolio] using hfin

/-- Witness for C1: one admitted open with a 1% stop fraction on the
default configuration keeps the risk sum within the 10% budget. -/
theorem C1_risk_budget_witness :
    (0:ℚ) ≤ 10/100 ∧
    getCurrentPortfolioRisk
        (applyTrace (mkPortfolio 10000 (2/100) (10/100) 5)
          [Op.openSig sigNarrow]) ≤ 10/100 :=
  ⟨by with_unfolding_all decide,
   C1_risk_budget 10000 (2/100) (10/100) 5 [Op.openSig sigNarrow]
     (by with_unfolding_all decide)
     (by
       intro op ho
       rw [List.mem_singleton.mp ho]
       exact ⟨by with_unfolding_all decide, by with_unfolding_all decide⟩)⟩

/-- Counterexample to C1 as stated: sigWide (entry 100, stop 50) passes
canOpenPosition on the fresh default portfolio, since the risk-budget
guard only accounts maxRiskPerTrade = 2% for the new trade, yet after the
admission the portfolio risk sum is 1/2, far above maxPortfolioRisk =
1/10. -/
theorem C1_risk_budget_counterexample :
    canOpenPosition defaultPortfolio sigWide.symbol sigWide.strategy
      sigWide.price = true ∧
    defaultPortfolio.maxPortfolioRisk <
      getCurrentPortfolioRisk (applyTrace defaultPortfolio [Op.openSig sigWide]) := by
  constructor
  · with_unfolding_all decide
  · norm_num [applyTrace, applyOp, openPosition, openedPositionOf,
      canOpenPosition, checkCorrelationLimit, corrXY, checkRiskBudget,
      getCurrentPortfolioRisk, positionRisk, getAvailableCapital,
      calculatePositionSize, defaultPortfolio, mkPortfolio, sigWide]

/-- find? retrieves exactly a member when ids are pairwise distinct. -/
theorem find?_of_mem_pairwise : ∀ (l : List Position),
    l.Pairwise (fun a b => a.id ≠ b.id) →
    ∀ p ∈ l, l.find? (fun q => q.id == p.id) = some p := by
  intro l
  induction l with
  | nil => intro _ p hp; simp at hp
  | cons a l ih =>
    intro hpw p hp
    obtain ⟨ha, hl⟩ := List.pairwise_cons.mp hpw
    rcases List.mem_cons.mp hp with rfl | hmem
    · rw [List.find?_cons_of_pos _ (by simp)]
    · rw [List.find?_cons_of_neg _ (by simpa using ha p hmem), ih hl p hmem]

/-- A rebalance step with no deep loss leaves the state unchanged. -/
theorem rebalanceStepState_of_not_loss {st : PortfolioState}
    {position : Position} (h : ¬ pnlPercentOf position < -(15/100 : ℚ)) :
    rebalanceStepState st position = st := by
  simp [rebalanceStepState, h]

/-- A rebalance step keeps every closed trade already recorded. -/
theorem rebalanceStepState_closedTrades_mono (st : PortfolioState)
    (position : Position) (t : ClosedTrade) (ht : t ∈ st.closedTrades) :
    t ∈ (rebalanceStepState st position).closedTrades := by
  unfold rebalanceStepState
  split
  · cases hfind : st.positions.find? (fun q => q.id == position.id) with
    | none =>
      simp only [closePosition_none _ _ hfind]
      exact ht
    | some p =>
      simp only [closePosition_some _ _ hfind]
      exact List.mem_append_left _ ht
  · exact ht

/-- A rebalance step introduces no new open positions. -/
theorem rebalanceStepState_positions_subset (st : PortfolioState)
    (position : Position) (q : Position)
    (hq : q ∈ (rebalanceStepState st position).positions) : q ∈ st.positions := by
  unfold rebalanceStepState at hq
  revert hq
  split
  · cases hfind : st.positions.find? (fun q => q.id == position.id) with
    | none =>
      simp only [closePosition_none _ _ hfind]
      exact id
    | some p =>
      simp only [closePosition_some _ _ hfind]
      exact fun hq => List.mem_of_mem_filter hq
  · exact id

/-- A rebalance step preserves distinctness of position ids. -/
theorem rebalanceStepState_pairwise (st : PortfolioState) (position : Position)
    (hpw : st.positions.Pairwise (fun a b => a.id ≠ b.id)) :
    (rebalanceStepState st position).positions.Pairwise
      (fun a b => a.id ≠ b.id) := by
  unfold rebalanceStepState
  split
  · cases hfind : st.positions.find? (fun q => q.id == position.id) with
    | none =>
      simp only [closePosition_none _ _ hfind]
      exact hpw
    | some p =>
      simp only [closePosition_some _ _ hfind]
      exact List.Pairwise.sublist (List.filter_sublist _) hpw
  · exact hpw

/-- A rebalance step keeps any open position with a different id. -/
theorem rebalanceStepState_mem_of_ne (st : PortfolioState)
    (position p : Position) (hmem : p ∈ st.positions)
    (hne : p.id ≠ position.id) :
    p ∈ (rebalanceStepState st position).positions := by
  unfold rebalanceStepState
  split
  · cases hfind : st.positions.find? (fun q => q.id == position.id) with
    | none =>
      simp only [closePosition_none _ _ hfind]
      exact hmem
    | some q =>
      simp only [closePosition_some _ _ hfind]
      exact List.mem_filter.mpr ⟨hmem, by simpa using hne⟩
  · exact hmem

/-- The rebalance sweep keeps every closed trade already recorded. -/
theorem rebalanceGo_closedTrades_mono : ∀ (l : List Position)
    (st : PortfolioState) (t : ClosedTrade), t ∈ st.closedTrades →
    t ∈ (rebalanceGo st l).1.closedTrades := by
  intro l
  induction l with
  | nil => intro st t ht; exact ht
  | cons a l ih =>
    intro st t ht
    exact ih (rebalanceStepState st a) t
      (rebalanceStepState_closedTrades_mono st a t ht)

/-- The rebalance sweep never reintroduces an id absent from the open
set. -/
theorem rebalanceGo_no_id : ∀ (l : List Position) (st : PortfolioState)
    (k : Nat), (∀ q ∈ st.positions, q.id ≠ k) →
    ∀ q ∈ (rebalanceGo st l).1.positions, q.id ≠ k := by
  intro l
  induction l with
  | nil => intro st k h q hq; exact h q hq
  | cons a l ih =>
    intro st k h q hq
    exact ih (rebalanceStepState st a) k
      (fun r hr => h r (rebalanceStepState_positions_subset st a r hr)) q hq

/-- The rebalance sweep keeps a position whose id occurs nowhere in the
snapshot being iterated. -/
theorem rebalanceGo_mem_of_ne : ∀ (l : List Position) (st : PortfolioState)
    (p : Position), p ∈ st.positions → (∀ q ∈ l, q.id ≠ p.id) →
    p ∈ (rebalanceGo st l).1.positions := by
  intro l
  induction l with
  | nil => intro st p h _; exact h
  | cons a l ih =>
    intro st p hmem hl
    have hne : p.id ≠ a.id := (hl a (List.mem_cons_self a l)).symm
    exact ih (rebalanceStepState st a) p
      (rebalanceStepState_mem_of_ne st a p hmem hne)
      (fun q hq => hl q (List.mem_cons_of_mem a hq))

/-- The rebalance sweep force-closes a deep-loss position: the closed
trade carries its id, reason rebalance_loss and its frozen entry/size,
and the id disappears from the open set. -/
theorem rebalanceGo_closes : ∀ (l : List Position) (st : PortfolioState)
    (p : Position), p ∈ l → l.Pairwise (fun a b => a.id ≠ b.id) →
    p ∈ st.positions → st.positions.Pairwise (fun a b => a.id ≠ b.id) →
    pnlPercentOf p < -(15/100 : ℚ) →
    (∃ t ∈ (rebalanceGo st l).1.closedTrades,
        t.id = p.id ∧ t.reason = "rebalance_loss" ∧
        t.entryPrice = p.entryPrice ∧ t.size = p.size) ∧
    ∀ q ∈ (rebalanceGo st l).1.positions, q.id ≠ p.id := by
  intro l
  induction l with
  | nil => intro st p hp; simp at hp
  | cons a l ih =>
    intro st p hp hpwl hmem hpwst hloss
    obtain ⟨hal, hll⟩ := List.pairwise_cons.mp hpwl
    rcases List.mem_cons.mp hp with rfl | hrest
    · have hfind := find?_of_mem_pairwise st.positions hpwst p hmem
      have hstep : rebalanceStepState st p =
          { st with
            closedTrades := st.closedTrades ++
              [closedTradeOf p (p.entryPrice * (1 + pnlPercentOf p))
                "rebalance_loss"]
            positions := st.positions.filter (fun q => q.id != p.id)
            currentCapital := st.currentCapital +
              p.size * (p.entryPrice * (1 + pnlPercentOf p)) } := by
        unfold rebalanceStepState
        rw [if_pos hloss]
        simp only [closePosition_some _ _ hfind]
      constructor
      · have ht0 : closedTradeOf p (p.entryPrice * (1 + pnlPercentOf p))
            "rebalance_loss" ∈ (rebalanceStepState st p).closedTrades := by
          rw [hstep]
          exact List.mem_append_right _ (by simp)
        have ht := rebalanceGo_closedTrades_mono l (rebalanceStepState st p) _ ht0
        exact ⟨_, ht, rfl, rfl, rfl, rfl⟩
      · show ∀ q ∈ (rebalanceGo (rebalanceStepState st p) l).1.positions,
          q.id ≠ p.id
        apply rebalanceGo_no_id l (rebalanceStepState st p) p.id
        intro q hq
        rw [hstep] at hq
        exact filter_ne_id st.positions p.id q hq
    · have hane : a.id ≠ p.id := hal p hrest
      have h1 : p ∈ (rebalanceStepState st a).positions :=
        rebalanceStepState_mem_of_ne st a p hmem (Ne.symm hane)
      have h2 := rebalanceStepState_pairwise st a hpwst
      exact ih (rebalanceStepState st a) p hrest hll h1 h2 hloss

/-- The rebalance sweep advises on a deep-gain position without closing
it. -/
theorem rebalanceGo_advises : ∀ (l : List Position) (st : PortfolioState)
    (p : Position), p ∈ l → l.Pairwise (fun a b => a.id ≠ b.id) →
    p ∈ st.positions → st.positions.Pairwise (fun a b => a.id ≠ b.id) →
    (25/100 : ℚ) < pnlPercentOf p →
    p.id ∈ (rebalanceGo st l).2 ∧ p ∈ (rebalanceGo st l).1.positions := by
  intro l
  induction l with
  | nil => intro st p hp; simp at hp
  | cons a l ih =>
    intro st p hp hpwl hmem hpwst hgain
    obtain ⟨hal, hll⟩ := List.pairwise_cons.mp hpwl
    rcases List.mem_cons.mp hp with rfl | hrest
    · have hnoloss : ¬ pnlPercentOf p < -(15/100 : ℚ) := by linarith
      have hstep : rebalanceStepState st p = st :=
        rebalanceStepState_of_not_loss hnoloss
      constructor
      · show p.id ∈ rebalanceAdvisories p ++
          (rebalanceGo (rebalanceStepState st p) l).2
        apply List.mem_append_left
        simp [rebalanceAdvisories, hgain]
      · show p ∈ (rebalanceGo (rebalanceStepState st p) l).1.positions
        rw [hstep]
        exact rebalanceGo_mem_of_ne l st p hmem
          (fun q hq => (hal q hq).symm)
    · have hane : a.id ≠ p.id := hal p hrest
      have h1 : p ∈ (rebalanceStepState st a).positions :=
        rebalanceStepState_mem_of_ne st a p hmem (Ne.symm hane)
      have h2 := rebalanceStepState_pairwise st a hpwst
      obtain ⟨hid, hpos⟩ := ih (rebalanceStepState st a) p hrest hll h1 h2 hgain
      exact ⟨List.mem_append_right _ hid, hpos⟩

/-- C9 (amended): rebalancePortfolio force-closes every open position
whose unrealized PnL fraction is below -15%, recording a ClosedTrade for
that id with closeReason rebalance_loss (a reason string outside the
declared closeReason set, not the spec's rebalance), and for every
position whose PnL fraction exceeds +25% it emits a
partialProfitSuggestion advisory and leaves the position open. -/
theorem C9_rebalance (st : PortfolioState) (p : Position)
    (hmem : p ∈ st.positions)
    (hpw : st.positions.Pairwise (fun a b => a.id ≠ b.id)) :
    (pnlPercentOf p < -(15/100 : ℚ) →
      (∃ t ∈ (rebalancePortfolio st).1.closedTrades,
          t.id = p.id ∧ t.reason = "rebalance_loss" ∧
          t.entryPrice = p.entryPrice ∧ t.size = p.size) ∧
      ∀ q ∈ (rebalancePortfolio st).1.positions, q.id ≠ p.id) ∧
    ((25/100 : ℚ) < pnlPercentOf p →
      p.id ∈ (rebalancePortfolio st).2 ∧
      p ∈ (rebalancePortfolio st).1.positions) := by
  constructor
  · intro hloss
    exact rebalanceGo_closes st.positions st p hmem hpw hmem hpw hloss
  · intro hgain
    exact rebalanceGo_advises st.positions st p hmem hpw hmem hpw hgain

/-- Witness for C9: posLoss (PnL fraction -20%) is force-closed with
reason rebalance_loss, and posGain (+30%) draws an advisory and stays
open. -/
theorem C9_rebalance_witness :
    ((∃ t ∈ (rebalancePortfolio stLoss).1.closedTrades,
        t.id = posLoss.id ∧ t.reason = "rebalance_loss" ∧
        t.entryPrice = posLoss.entryPrice ∧ t.size = posLoss.size) ∧
      ∀ q ∈ (rebalancePortfolio stLoss).1.positions, q.id ≠ posLoss.id) ∧
    (posGain.id ∈ (rebalancePortfolio stGain).2 ∧
      posGain ∈ (rebalancePortfolio stGain).1.positions) :=
  ⟨(C9_rebalance stLoss posLoss (by simp [stLoss]) (by simp [stLoss])).1
     (by with_unfolding_all decide),
   (C9_rebalance stGain posGain (by simp [stGain]) (by simp [stGain])).2
     (by with_unfolding_all decide)⟩

/-- Counterexample to C9 as stated: on stLoss the sweep records exactly
one closed trade and its closeReason is the string rebalance_loss, which
is not rebalance and lies outside the declared closeReason set
{stop_loss, take_profit, manual, rebalance, shutdown}. -/
theorem C9_rebalance_counterexample :
    ((rebalancePortfolio stLoss).1.closedTrades.map (fun t => t.reason)) =
      ["rebalance_loss"] ∧
    ("rebalance_loss" : String) ≠ "rebalance" ∧
    ("rebalance_loss" : String) ∉
      ["stop_loss", "take_profit", "manual", "rebalance", "shutdown"] := by
  refine ⟨?_, by decide, by decide⟩
  norm_num [rebalancePortfolio, rebalanceGo, rebalanceStepState,
    rebalanceAdvisories, pnlPercentOf, closePosition, closedTradeOf,
    calculatePnL, stLoss, posLoss, defaultPortfolio, mkPortfolio, List.find?]

/-- A stored signal with matching symbol, action and a time delta below
TTL makes the duplicate check fire. -/
theorem isDuplicateSignal_of_mem {signalTTL : Int}
    {recent : List WebhookSignal} {e s : WebhookSignal} (hmem : e ∈ recent)
    (hsym : e.symbol = s.symbol) (hact : e.action = s.action)
    (ht : s.timestamp - e.timestamp < signalTTL) :
    isDuplicateSignal signalTTL recent s = true := by
  unfold isDuplicateSignal
  rw [List.any_eq_true]
  exact ⟨e, hmem, by simp [hsym, hact, ht]⟩

/-- The duplicate classification, characterized: a signal is a duplicate
iff some stored signal shares its symbol and action and arrived less than
signalTTL before it. -/
theorem isDuplicateSignal_iff (signalTTL : Int)
    (recent : List WebhookSignal) (s : WebhookSignal) :
    isDuplicateSignal signalTTL recent s = true ↔
      ∃ e ∈ recent, e.symbol = s.symbol ∧ e.action = s.action ∧
        s.timestamp - e.timestamp < signalTTL := by
  unfold isDuplicateSignal
  rw [List.any_eq_true]
  constructor
  · rintro ⟨e, he, hprop⟩
    simp only [Bool.and_eq_true, beq_iff_eq, decide_eq_true_eq] at hprop
    exact ⟨e, he, hprop.1.1, hprop.1.2, hprop.2⟩
  · rintro ⟨e, he, h1, h2, h3⟩
    exact ⟨e, he, by simp [h1, h2, h3]⟩

/-- The just-processed signal survives its own lazy sweep whenever the
TTL is nonnegative. -/
theorem mem_processSignal_window {signalTTL : Int}
    {recent : List WebhookSignal} {s : WebhookSignal} (httl : 0 ≤ signalTTL) :
    s ∈ cleanOldSignals signalTTL s.timestamp (recent ++ [s]) := by
  unfold cleanOldSignals
  apply List.mem_filter.mpr
  refine ⟨List.mem_append_right _ (by simp), ?_⟩
  simp only [decide_eq_true_eq]
  omega

/-- With no allow-list, no secret and no duplicate, the route processes
the signal: 200 received, stored window, dispatched event. -/
theorem handleWebhook_open_nondup (hmacHex : String → String → String)
    (cfg : ReceiverConfig) (recent : List WebhookSignal)
    (req : WebhookRequest) (hip : cfg.allowedIPs = [])
    (hsec : cfg.webhookSecret = none)
    (hdup : isDuplicateSignal cfg.signalTTL recent req.signal = false) :
    handleWebhook hmacHex cfg recent req =
      (.ok200received req.signal.id,
       cleanOldSignals cfg.signalTTL req.signal.timestamp
         (recent ++ [req.signal]),
       some (signalEventFor req.signal)) := by
  unfold handleWebhook
  rw [hip, hsec]
  simp [hdup, processSignal]

/-- With no allow-list and no secret, a duplicate is acknowledged and
dropped: 200 duplicate_ignored, window untouched, nothing emitted. -/
theorem handleWebhook_open_dup (hmacHex : String → String → String)
    (cfg : ReceiverConfig) (recent : List WebhookSignal)
    (req : WebhookRequest) (hip : cfg.allowedIPs = [])
    (hsec : cfg.webhookSecret = none)
    (hdup : isDuplicateSignal cfg.signalTTL recent req.signal = true) :
    handleWebhook hmacHex cfg recent req = (.ok200duplicate, recent, none) := by
  unfold handleWebhook
  rw [hip, hsec]
  simp [hdup]

/-- A valid signal never dispatches as invalidSignal. -/
theorem signalEventFor_ne_invalid {s : WebhookSignal}
    (h : isValidSignal s = true) :
    signalEventFor s ≠ SignalEvent.invalidSignal := by
  unfold signalEventFor
  rw [h]
  simp only [Bool.not_true, Bool.false_eq_true, if_false]
  split
  · simp
  · split
    · simp
    · split <;> simp

/-- An invalid signal dispatches exactly the invalidSignal event. -/
theorem signalEventFor_invalid {s : WebhookSignal}
    (h : isValidSignal s = false) :
    signalEventFor s = SignalEvent.invalidSignal := by
  simp [signalEventFor, h]

/-- C3: with a secret configured, a POST /webhook request that carries NO
x-tradingview-signature header is not rejected: verifySignature returns
true through its missing-signature disjunct, so the request is processed
(200 received, event dispatched) instead of failing with 401.  This holds
for every possible HMAC function, i.e. the digest is never consulted. -/
theorem C3_missing_signature_bypass (hmacHex : String → String → String) :
    verifySignature hmacHex (some "topsecret") "body" none = true ∧
    (handleWebhook hmacHex cfgSecret [] reqA).1 =
      WebhookResponse.ok200received 1 ∧
    (handleWebhook hmacHex cfgSecret [] reqA).1 ≠
      WebhookResponse.unauthorized401 ∧
    (handleWebhook hmacHex cfgSecret [] reqA).2.2 =
      some SignalEvent.buySignal := by
  have h2 : (handleWebhook hmacHex cfgSecret [] reqA).1 =
      WebhookResponse.ok200received 1 := rfl
  refine ⟨rfl, h2, ?_, rfl⟩
  rw [h2]
  decide

/-- C6 (amended): duplicate classification is exactly same-symbol,
same-action, signed arrival delta below signalTTL against some stored
signal; and when no matching signal is already in the recent window, of
two such signals the first is admitted (200 received, event emitted) and
the second is acknowledged duplicate_ignored, not stored and not
emitted. -/
theorem C6_dedup_exactly_one (hmacHex : String → String → String)
    (cfg : ReceiverConfig) (recent : List WebhookSignal)
    (r1 r2 : WebhookRequest)
    (hip : cfg.allowedIPs = []) (hsec : cfg.webhookSecret = none)
    (hfresh : isDuplicateSignal cfg.signalTTL recent r1.signal = false)
    (hvalid : isValidSignal r1.signal = true)
    (hsym : r2.signal.symbol = r1.signal.symbol)
    (hact : r2.signal.action = r1.signal.action)
    (hd0 : 0 ≤ r2.signal.timestamp - r1.signal.timestamp)
    (hdlt : r2.signal.timestamp - r1.signal.timestamp < cfg.signalTTL) :
    (∀ (ttl : Int) (window : List WebhookSignal) (s : WebhookSignal),
      isDuplicateSignal ttl window s = true ↔
        ∃ e ∈ window, e.symbol = s.symbol ∧ e.action = s.action ∧
          s.timestamp - e.timestamp < ttl) ∧
    Admitted (handleWebhook hmacHex cfg recent r1) ∧
    (handleWebhook hmacHex cfg recent r1).1 =
      WebhookResponse.ok200received r1.signal.id ∧
    handleWebhook hmacHex cfg (handleWebhook hmacHex cfg recent r1).2.1 r2 =
      (.ok200duplicate, (handleWebhook hmacHex cfg recent r1).2.1, none) := by
  have httl : (0:Int) ≤ cfg.signalTTL := le_of_lt (lt_of_le_of_lt hd0 hdlt)
  have h1 := handleWebhook_open_nondup hmacHex cfg recent r1 hip hsec hfresh
  have hmem : r1.signal ∈ (handleWebhook hmacHex cfg recent r1).2.1 := by
    rw [h1]
    exact mem_processSignal_window httl
  refine ⟨isDuplicateSignal_iff, ?_, ?_, ?_⟩
  · rw [h1]
    exact ⟨⟨r1.signal.id, rfl⟩, by simp,
      by simpa using signalEventFor_ne_invalid hvalid⟩
  · rw [h1]
  · exact handleWebhook_open_dup hmacHex cfg _ r2 hip hsec
      (isDuplicateSignal_of_mem hmem hsym.symm hact.symm hdlt)

/-- Witness for C6: buy signals for ABUSD at t = 0 and t = 1 ms on an
empty window with the no-secret configuration. -/
theorem C6_dedup_exactly_one_witness :
    Admitted (handleWebhook hmacConst cfgOpen [] reqA) ∧
    (handleWebhook hmacConst cfgOpen [] reqA).1 =
      WebhookResponse.ok200received reqA.signal.id ∧
    handleWebhook hmacConst cfgOpen
        (handleWebhook hmacConst cfgOpen [] reqA).2.1 reqB =
      (.ok200duplicate, (handleWebhook hmacConst cfgOpen [] reqA).2.1, none) := by
  have h := C6_dedup_exactly_one hmacConst cfgOpen [] reqA reqB rfl rfl
    (by decide) (by decide) (by decide) (by decide) (by decide) (by decide)
  exact ⟨h.2.1, h.2.2.1, h.2.2.2⟩

/-- Counterexample to C6 as stated: after the buy signal at t = 0 is
admitted, the buy signals at t = 1 and t = 2 are two signals with the same
symbol and action and delta 1 ms < TTL, yet NEITHER is admitted - both
get duplicate_ignored, so exactly-one-admission fails for that pair. -/
theorem C6_dedup_counterexample :
    reqB.signal.symbol = reqC.signal.symbol ∧
    reqB.signal.action = reqC.signal.action ∧
    0 ≤ reqC.signal.timestamp - reqB.signal.timestamp ∧
    reqC.signal.timestamp - reqB.signal.timestamp < cfgOpen.signalTTL ∧
    handleWebhook hmacConst cfgOpen
        (handleWebhook hmacConst cfgOpen [] reqA).2.1 reqB =
      (.ok200duplicate, (handleWebhook hmacConst cfgOpen [] reqA).2.1, none) ∧
    handleWebhook hmacConst cfgOpen
        (handleWebhook hmacConst cfgOpen [] reqA).2.1 reqC =
      (.ok200duplicate, (handleWebhook hmacConst cfgOpen [] reqA).2.1, none) := by
  decide

/-- C10: a non-duplicate signal that fails validation is stored in the
recent window before validation runs (200 received, invalidSignal event,
signal present in the window), and a matching signal within signalTTL is
then reported duplicate_ignored and never admitted, although no valid
signal was admitted in that window. -/
theorem C10_invalid_still_enters_window (hmacHex : String → String → String)
    (cfg : ReceiverConfig) (recent : List WebhookSignal)
    (r1 r2 : WebhookRequest)
    (hip : cfg.allowedIPs = []) (hsec : cfg.webhookSecret = none)
    (hfresh : isDuplicateSignal cfg.signalTTL recent r1.signal = false)
    (hinvalid : isValidSignal r1.signal = false)
    (hsym : r2.signal.symbol = r1.signal.symbol)
    (hact : r2.signal.action = r1.signal.action)
    (hd0 : 0 ≤ r2.signal.timestamp - r1.signal.timestamp)
    (hdlt : r2.signal.timestamp - r1.signal.timestamp < cfg.signalTTL) :
    handleWebhook hmacHex cfg recent r1 =
      (.ok200received r1.signal.id,
       cleanOldSignals cfg.signalTTL r1.signal.timestamp
         (recent ++ [r1.signal]),
       some SignalEvent.invalidSignal) ∧
    r1.signal ∈ (handleWebhook hmacHex cfg recent r1).2.1 ∧
    handleWebhook hmacHex cfg (handleWebhook hmacHex cfg recent r1).2.1 r2 =
      (.ok200duplicate, (handleWebhook hmacHex cfg recent r1).2.1, none) := by
  have httl : (0:Int) ≤ cfg.signalTTL := le_of_lt (lt_of_le_of_lt hd0 hdlt)
  have h1 := handleWebhook_open_nondup hmacHex cfg recent r1 hip hsec hfresh
  rw [signalEventFor_invalid hinvalid] at h1
  have hmem : r1.signal ∈ (handleWebhook hmacHex cfg recent r1).2.1 := by
    rw [h1]
    exact mem_processSignal_window httl
  exact ⟨h1, hmem, handleWebhook_open_dup hmacHex cfg _ r2 hip hsec
    (isDuplicateSignal_of_mem hmem hsym.symm hact.symm hdlt)⟩

/-- Witness for C10: the unrecognized action hold for ABUSD at t = 0
poisons the window, so the matching signal at t = 1 ms is reported a
duplicate. -/
theorem C10_invalid_still_enters_window_witness :
    handleWebhook hmacConst cfgOpen [] reqH1 =
      (.ok200received reqH1.signal.id,
       cleanOldSignals cfgOpen.signalTTL reqH1.signal.timestamp
         ([] ++ [reqH1.signal]),
       some SignalEvent.invalidSignal) ∧
    reqH1.signal ∈ (handleWebhook hmacConst cfgOpen [] reqH1).2.1 ∧
    handleWebhook hmacConst cfgOpen
        (handleWebhook hmacConst cfgOpen [] reqH1).2.1 reqH2 =
      (.ok200duplicate, (handleWebhook hmacConst cfgOpen [] reqH1).2.1, none) :=
  C10_invalid_still_enters_window hmacConst cfgOpen [] reqH1 reqH2 rfl rfl
    (by decide) (by decide) (by decide) (by decide) (by decide) (by decide)

end Trading
